import Mathlib

/-!
# SecureChat (src/app.js) — verification of spec claims

Shallow embedding of the client-side chat logic in `src/app.js`.
Strings coming from the DOM are modelled as `String` (or `List Char` where
character-level reasoning is needed). Firestore server timestamps are modelled
by their `seconds` field (`Option Nat`; `none` while the server timestamp is
still pending), because the code only ever reads `timestamp?.seconds`.
The SHA-256 digest primitive (`crypto.subtle.digest`) is opaque to the
program, so it is modelled as an abstract function parameter.
-/

namespace SecureChat

/-! ## Slug normalization (handleRoomFormSubmit, src/app.js:234)

`dom.roomInput.value.trim().toLowerCase().replace(/[^a-z0-9-]/g, '')`.
Modelled on `List Char`. `Char.toLower` in Lean maps exactly the ASCII range
`A`-`Z` down by 32, like the dominant case of JS `toLowerCase`; JS Unicode
special cases can only produce characters that the final filter removes or
keeps identically, and the idempotence/character-set facts proved below
depend only on `toLower` being the identity on `[a-z0-9-]`. -/

/-- The character class kept by the slug regex `[a-z0-9-]`. -/
def isSlugChar (c : Char) : Bool :=
  (97 ≤ c.toNat && c.toNat ≤ 122) || (48 ≤ c.toNat && c.toNat ≤ 57) || (c.toNat == 45)

/-- Whitespace removed by JS `String.prototype.trim` (ASCII part plus the
common Unicode whitespace code points; only end-of-string whitespace matters). -/
def jsWhitespace (c : Char) : Bool :=
  c.toNat == 32 || c.toNat == 9 || c.toNat == 10 || c.toNat == 13 ||
  c.toNat == 11 || c.toNat == 12 || c.toNat == 160 ||
  c.toNat == 0xFEFF || c.toNat == 0x2028 || c.toNat == 0x2029

/-- JS `trim`: drop leading and trailing whitespace. -/
def jsTrim (l : List Char) : List Char :=
  ((l.dropWhile jsWhitespace).reverse.dropWhile jsWhitespace).reverse

/-- ASCII lower-casing, the behaviour of JS `toLowerCase` on the code points
that can survive the slug filter. -/
def jsLowerChar (c : Char) : Char :=
  if 65 ≤ c.toNat ∧ c.toNat ≤ 90 then Char.ofNat (c.toNat + 32) else c

/-- `value.trim().toLowerCase().replace(/[^a-z0-9-]/g, '')` from
src/app.js:234. -/
def normalizeSlug (l : List Char) : List Char :=
  ((jsTrim l).map jsLowerChar).filter isSlugChar

lemma slugChar_not_whitespace {c : Char} (h : isSlugChar c = true) :
    jsWhitespace c = false := by
  simp only [isSlugChar, Bool.or_eq_true, Bool.and_eq_true, decide_eq_true_eq,
    beq_iff_eq] at h
  simp only [jsWhitespace, Bool.or_eq_false_iff, beq_eq_false_iff_ne, ne_eq]
  omega

lemma slugChar_lower_fixed {c : Char} (h : isSlugChar c = true) :
    jsLowerChar c = c := by
  simp only [isSlugChar, Bool.or_eq_true, Bool.and_eq_true, decide_eq_true_eq,
    beq_iff_eq] at h
  unfold jsLowerChar
  rw [if_neg]
  omega

lemma dropWhile_eq_self_of_none {p : Char → Bool} :
    ∀ {l : List Char}, (∀ c ∈ l, p c = false) → l.dropWhile p = l
  | [], _ => rfl
  | c :: t, h => by
      rw [List.dropWhile_cons, if_neg]
      simp [h c (by simp)]

lemma jsTrim_eq_self {l : List Char} (h : ∀ c ∈ l, jsWhitespace c = false) :
    jsTrim l = l := by
  unfold jsTrim
  rw [dropWhile_eq_self_of_none h, dropWhile_eq_self_of_none, List.reverse_reverse]
  intro c hc
  exact h c (List.mem_reverse.mp hc)

lemma mem_normalizeSlug_isSlug {l : List Char} {c : Char}
    (h : c ∈ normalizeSlug l) : isSlugChar c = true :=
  (List.mem_filter.mp h).2

/-- C9: slug normalization is idempotent and its output stays inside
`[a-z0-9-]`. -/
theorem normalizeSlug_idempotent_and_charset (l : List Char) :
    normalizeSlug (normalizeSlug l) = normalizeSlug l ∧
    ∀ c ∈ normalizeSlug l, isSlugChar c = true := by
  refine ⟨?_, fun c hc => mem_normalizeSlug_isSlug hc⟩
  have hslug : ∀ c ∈ normalizeSlug l, isSlugChar c = true :=
    fun c hc => mem_normalizeSlug_isSlug hc
  have htrim : jsTrim (normalizeSlug l) = normalizeSlug l :=
    jsTrim_eq_self (fun c hc => slugChar_not_whitespace (hslug c hc))
  have hmap : (normalizeSlug l).map jsLowerChar = normalizeSlug l := by
    have : (normalizeSlug l).map jsLowerChar = (normalizeSlug l).map id :=
      List.map_congr_left (fun c hc => slugChar_lower_fixed (hslug c hc))
    rw [this, List.map_id]
  have hfilter : (normalizeSlug l).filter isSlugChar = normalizeSlug l :=
    List.filter_eq_self.mpr (fun c hc => hslug c hc)
  show ((jsTrim (normalizeSlug l)).map jsLowerChar).filter isSlugChar
      = normalizeSlug l
  rw [htrim, hmap, hfilter]

/-! ## Messages and the incremental message feed (listenForMessages, src/app.js:426-469)

A message document. `kind` models the JS `type` field (`"event"` for system
messages, absent/`"user"` otherwise); `timestamp` is the `seconds` field of the
Firestore server timestamp, `none` while the timestamp is still pending. -/

structure Msg where
  id : String
  kind : String
  text : String
  senderId : String
  name : String
  timestamp : Option Nat
  deriving DecidableEq, Repr

/-- One entry of a snapshot's `docChanges()`. -/
inductive Change where
  | added (m : Msg)
  | modified (m : Msg)
  | removed (id : String)
  deriving DecidableEq, Repr

/-- The `messages` list accumulated by the `docChanges().forEach` loop:
the `added` changes, in delivery order. -/
def addedOf (batch : List Change) : List Msg :=
  batch.filterMap (fun c =>
    match c with
    | .added m => some m
    | _ => none)

/-- The sort key of `messages.sort((a, b) => (a.timestamp?.seconds || 0) -
(b.timestamp?.seconds || 0))`: a pending (`null`) timestamp contributes `0`. -/
def tsKey (m : Msg) : Nat := m.timestamp.getD 0

/-- Insert `x` before the first element whose key is not below `x`'s key.
Together with `sortAdded` this is the unique stable ascending sort for the
comparator above, which is what `Array.prototype.sort` (stable per the
ECMAScript spec) computes. -/
def orderedInsertMsg (x : Msg) : List Msg → List Msg
  | [] => [x]
  | y :: t => if tsKey x ≤ tsKey y then x :: y :: t else y :: orderedInsertMsg x t

/-- `messages.sort(...)` (src/app.js:462): stable ascending sort by `tsKey`. -/
def sortAdded : List Msg → List Msg
  | [] => []
  | x :: t => orderedInsertMsg x (sortAdded t)

/-- The order in which `renderMessages(messages, 'added')` appends the batch
to the DOM (src/app.js:464, 511-554): the sorted order. -/
def renderOrder (batch : List Change) : List Msg :=
  sortAdded (addedOf batch)

lemma orderedInsertMsg_perm (x : Msg) :
    ∀ l : List Msg, (orderedInsertMsg x l).Perm (x :: l)
  | [] => List.Perm.refl _
  | y :: t => by
      unfold orderedInsertMsg
      split
      · exact List.Perm.refl _
      · exact ((orderedInsertMsg_perm x t).cons y).trans (List.Perm.swap x y t)

lemma sortAdded_perm : ∀ l : List Msg, (sortAdded l).Perm l
  | [] => List.Perm.refl _
  | x :: t =>
      (orderedInsertMsg_perm x (sortAdded t)).trans ((sortAdded_perm t).cons x)

lemma mem_orderedInsertMsg {a x : Msg} {l : List Msg} :
    a ∈ orderedInsertMsg x l ↔ a = x ∨ a ∈ l := by
  rw [(orderedInsertMsg_perm x l).mem_iff, List.mem_cons]

lemma orderedInsertMsg_pairwise {x : Msg} :
    ∀ {l : List Msg}, l.Pairwise (fun a b => tsKey a ≤ tsKey b) →
      (orderedInsertMsg x l).Pairwise (fun a b => tsKey a ≤ tsKey b)
  | [], _ => by simp [orderedInsertMsg]
  | y :: t, h => by
      unfold orderedInsertMsg
      split
      · rename_i hxy
        refine List.Pairwise.cons ?_ h
        intro b hb
        rcases List.mem_cons.mp hb with hb | hb
        · exact hb ▸ hxy
        · exact le_trans hxy ((List.pairwise_cons.mp h).1 b hb)
      · rename_i hxy
        have hrest := orderedInsertMsg_pairwise (x := x) (List.pairwise_cons.mp h).2
        refine List.Pairwise.cons ?_ hrest
        intro b hb
        rcases mem_orderedInsertMsg.mp hb with hb | hb
        · exact hb ▸ (Nat.le_of_not_le hxy)
        · exact (List.pairwise_cons.mp h).1 b hb

lemma sortAdded_pairwise :
    ∀ l : List Msg, (sortAdded l).Pairwise (fun a b => tsKey a ≤ tsKey b)
  | [] => List.Pairwise.nil
  | _ :: t => orderedInsertMsg_pairwise (sortAdded_pairwise t)

lemma orderedInsertMsg_of_zero {x : Msg} (hx : tsKey x = 0) (l : List Msg) :
    orderedInsertMsg x l = x :: l := by
  cases l with
  | nil => rfl
  | cons y t =>
      unfold orderedInsertMsg
      rw [if_pos (by omega)]

lemma filter_orderedInsertMsg_of_notNull {x : Msg}
    (hx : x.timestamp.isNone = false) :
    ∀ l : List Msg,
      (orderedInsertMsg x l).filter (fun m => m.timestamp.isNone)
        = l.filter (fun m => m.timestamp.isNone)
  | [] => by simp [orderedInsertMsg, hx]
  | y :: t => by
      unfold orderedInsertMsg
      split
      · simp [hx]
      · simp only [List.filter_cons]
        rw [filter_orderedInsertMsg_of_notNull hx t]

/-- Stability of the sort on the `null`-timestamp subsequence: those messages
keep their delivery order. -/
lemma sortAdded_filter_null :
    ∀ l : List Msg,
      (sortAdded l).filter (fun m => m.timestamp.isNone)
        = l.filter (fun m => m.timestamp.isNone)
  | [] => rfl
  | x :: t => by
      cases hx : x.timestamp with
      | none =>
          have hkey : tsKey x = 0 := by simp [tsKey, hx]
          show (orderedInsertMsg x (sortAdded t)).filter _ = _
          rw [orderedInsertMsg_of_zero hkey]
          simp [List.filter_cons, hx, sortAdded_filter_null t]
      | some v =>
          have hxn : x.timestamp.isNone = false := by simp [hx]
          show (orderedInsertMsg x (sortAdded t)).filter _ = _
          rw [filter_orderedInsertMsg_of_notNull hxn]
          simp [List.filter_cons, hxn, sortAdded_filter_null t]

/-- C2: per delivered batch, the rendered `added` messages are exactly the
delivered ones, in timestamp-ascending order; with all timestamps present and
distinct the order is strictly ascending; pending (`null`) timestamps sort
before every (positive) server timestamp and keep delivery order among
themselves. -/
theorem listenForMessages_added_order (batch : List Change)
    (hpos : ∀ m ∈ addedOf batch, m.timestamp ≠ none → 0 < tsKey m) :
    (renderOrder batch).Perm (addedOf batch)
    ∧ (renderOrder batch).Pairwise (fun a b => tsKey a ≤ tsKey b)
    ∧ ((∀ m ∈ addedOf batch, m.timestamp ≠ none) →
        (addedOf batch).Pairwise (fun a b => a.timestamp ≠ b.timestamp) →
        (renderOrder batch).Pairwise (fun a b => tsKey a < tsKey b))
    ∧ (renderOrder batch).Pairwise
        (fun a b => b.timestamp = none → a.timestamp = none)
    ∧ (renderOrder batch).filter (fun m => m.timestamp.isNone)
        = (addedOf batch).filter (fun m => m.timestamp.isNone) := by
  have hperm : (renderOrder batch).Perm (addedOf batch) :=
    sortAdded_perm (addedOf batch)
  have hsorted := sortAdded_pairwise (addedOf batch)
  refine ⟨hperm, hsorted, ?_, ?_, sortAdded_filter_null (addedOf batch)⟩
  · intro hall hnodup
    have hkey : (addedOf batch).Pairwise (fun a b => tsKey a ≠ tsKey b) := by
      refine hnodup.imp_of_mem ?_
      intro a b ha hb hne
      obtain ⟨ta, hta⟩ := Option.ne_none_iff_exists'.mp (hall a ha)
      obtain ⟨tb, htb⟩ := Option.ne_none_iff_exists'.mp (hall b hb)
      simp only [tsKey, hta, htb, Option.getD_some]
      intro h
      exact hne (by rw [hta, htb, h])
    have hkey' : (renderOrder batch).Pairwise (fun a b => tsKey a ≠ tsKey b) :=
      (hperm.pairwise_iff (fun h h2 => h h2.symm)).mpr hkey
    exact (hsorted.and hkey').imp (fun h => lt_of_le_of_ne h.1 h.2)
  · refine hsorted.imp_of_mem ?_
    intro a b ha hb hle hbnull
    have ha' : a ∈ addedOf batch := hperm.mem_iff.mp ha
    by_contra hanull
    have := hpos a ha' hanull
    have hb0 : tsKey b = 0 := by simp [tsKey, hbnull]
    omega

/-- A concrete out-of-order batch with one pending-timestamp message,
used to witness `listenForMessages_added_order`. -/
def sampleBatch : List Change :=
  [Change.added ⟨"m1", "user", "hi", "u1", "A", some 50⟩,
   Change.added ⟨"m2", "user", "yo", "u2", "B", none⟩,
   Change.removed "zz",
   Change.added ⟨"m3", "user", "ok", "u1", "A", some 20⟩]

/-- C2 witness: the ordering theorem instantiated at `sampleBatch`. -/
theorem listenForMessages_added_order_witness :
    (∀ m ∈ addedOf sampleBatch, m.timestamp ≠ none → 0 < tsKey m) ∧
    ((renderOrder sampleBatch).Perm (addedOf sampleBatch)
    ∧ (renderOrder sampleBatch).Pairwise (fun a b => tsKey a ≤ tsKey b)
    ∧ ((∀ m ∈ addedOf sampleBatch, m.timestamp ≠ none) →
        (addedOf sampleBatch).Pairwise (fun a b => a.timestamp ≠ b.timestamp) →
        (renderOrder sampleBatch).Pairwise (fun a b => tsKey a < tsKey b))
    ∧ (renderOrder sampleBatch).Pairwise
        (fun a b => b.timestamp = none → a.timestamp = none)
    ∧ (renderOrder sampleBatch).filter (fun m => m.timestamp.isNone)
        = (addedOf sampleBatch).filter (fun m => m.timestamp.isNone)) :=
  ⟨by decide, listenForMessages_added_order sampleBatch (by decide)⟩

/-! ## Name selection (handleNameFormSubmit, src/app.js:316-386)

A participant document in `chat-rooms/<room>/users`: doc id = client identity,
data = display name (`joined` timestamps are server-assigned and irrelevant to
the claims below). JS `toLowerCase` on names is modelled by mapping
`jsLowerChar` over the characters (ASCII case folding). -/

structure Participant where
  id : String
  name : List Char
  deriving DecidableEq, Repr

/-- `name.toLowerCase()` as used in the name-uniqueness scan. -/
def lowerName (n : List Char) : List Char := n.map jsLowerChar

/-- The `querySnapshot.forEach` scan (src/app.js:333-341): first component is
`nameIsTaken`, second is whether `existingUserDoc` was found. Note the scan
recognises the caller's own record only when its stored name equals the
submitted name case-insensitively. -/
def scanUsers (users : List Participant) (uid : String) (name : List Char) :
    Bool × Bool :=
  users.foldl
    (fun acc u =>
      if lowerName u.name == lowerName name then
        if u.id != uid then (true, acc.2) else (acc.1, true)
      else acc)
    (false, false)

/-- Outcome of the post-validation part of `handleNameFormSubmit`. -/
inductive NameOutcome where
  /-- validation error shown, back to the name screen, nothing written -/
  | rejected
  /-- `updateDoc` refreshing `joined` only; no join event posted -/
  | refreshed
  /-- `setDoc` of the participant record plus a system join-event message -/
  | created (eventText : List Char)
  deriving DecidableEq, Repr

/-- `handleNameFormSubmit` after the non-empty/room guard: `name` is the
trimmed submitted name, `users` the room's participant snapshot. -/
def handleNameFormSubmit (users : List Participant) (uid : String)
    (name : List Char) : NameOutcome :=
  let s := scanUsers users uid name
  if s.1 then .rejected
  else if s.2 then .refreshed
  else .created (name ++ " has joined the room.".toList)

/-- The room's participant records after the submission: `setDoc` on the
caller's doc id overwrites (or creates) that record; the other outcomes leave
every record's identity and name unchanged. -/
def usersAfter (users : List Participant) (uid : String) (name : List Char) :
    List Participant :=
  match handleNameFormSubmit users uid name with
  | .rejected => users
  | .refreshed => users
  | .created _ => ⟨uid, name⟩ :: users.filter (fun u => u.id != uid)

lemma scanUsers_fst (uid : String) (name : List Char) :
    ∀ (users : List Participant) (b1 b2 : Bool),
      (users.foldl
        (fun acc u =>
          if lowerName u.name == lowerName name then
            if u.id != uid then (true, acc.2) else (acc.1, true)
          else acc)
        (b1, b2)).1
      = (b1 || users.any
          (fun u => lowerName u.name == lowerName name && u.id != uid))
  | [], b1, b2 => by simp
  | u :: t, b1, b2 => by
      simp only [List.foldl_cons, List.any_cons]
      by_cases h1 : lowerName u.name == lowerName name
      · by_cases h2 : u.id != uid
        · rw [if_pos h1, if_pos h2, scanUsers_fst uid name t]
          simp [h1, h2]
        · rw [if_pos h1, if_neg h2, scanUsers_fst uid name t]
          simp [h1, Bool.eq_false_iff.mpr h2]
      · rw [if_neg h1, scanUsers_fst uid name t]
        simp [Bool.eq_false_iff.mpr h1]

lemma scanUsers_snd (uid : String) (name : List Char) :
    ∀ (users : List Participant) (b1 b2 : Bool),
      (users.foldl
        (fun acc u =>
          if lowerName u.name == lowerName name then
            if u.id != uid then (true, acc.2) else (acc.1, true)
          else acc)
        (b1, b2)).2
      = (b2 || users.any
          (fun u => lowerName u.name == lowerName name && u.id == uid))
  | [], b1, b2 => by simp
  | u :: t, b1, b2 => by
      simp only [List.foldl_cons, List.any_cons]
      by_cases h1 : lowerName u.name == lowerName name
      · by_cases h2 : u.id != uid
        · rw [if_pos h1, if_pos h2, scanUsers_snd uid name t]
          have : (u.id == uid) = false := by
            simpa [bne] using h2
          simp [h1, this]
        · rw [if_pos h1, if_neg h2, scanUsers_snd uid name t]
          have : (u.id == uid) = true := by
            simpa [bne] using h2
          simp [h1, this]
      · rw [if_neg h1, scanUsers_snd uid name t]
        simp [Bool.eq_false_iff.mpr h1]

lemma nameIsTaken_iff (users : List Participant) (uid : String)
    (name : List Char) :
    (scanUsers users uid name).1 = true
      ↔ ∃ u ∈ users, lowerName u.name = lowerName name ∧ u.id ≠ uid := by
  unfold scanUsers
  rw [scanUsers_fst]
  simp [List.any_eq_true, and_comm]

lemma existingUser_iff (users : List Participant) (uid : String)
    (name : List Char) :
    (scanUsers users uid name).2 = true
      ↔ ∃ u ∈ users, lowerName u.name = lowerName name ∧ u.id = uid := by
  unfold scanUsers
  rw [scanUsers_snd]
  simp [List.any_eq_true, and_comm]

/-- C1 counterexample: client `u1` already holds a participant record (name
`Alice`) and resubmits the name form with a different name `Bob`. The claim
says the record's joined-at is refreshed and no join event is emitted;
the code instead takes the create branch and posts a join-event message. -/
theorem handleNameFormSubmit_rejoin_newname_cex :
    (∃ u ∈ [Participant.mk "u1" "Alice".toList], u.id = "u1") ∧
    handleNameFormSubmit [Participant.mk "u1" "Alice".toList] "u1" "Bob".toList
      = NameOutcome.created ("Bob has joined the room.".toList) ∧
    handleNameFormSubmit [Participant.mk "u1" "Alice".toList] "u1" "Bob".toList
      ≠ NameOutcome.refreshed := by decide

/-- C1 amended: when no *other* participant holds the submitted name, the
submission refreshes the existing record (emitting no join event) exactly when
this client's record holds the submitted name case-insensitively; otherwise —
no record, or a record under a different name — the record is (re)written and
a join-event message is posted. -/
theorem handleNameFormSubmit_rejoin (users : List Participant) (uid : String)
    (name : List Char)
    (hfree : ∀ u ∈ users, u.id ≠ uid → lowerName u.name ≠ lowerName name) :
    (handleNameFormSubmit users uid name = NameOutcome.refreshed
      ↔ ∃ u ∈ users, u.id = uid ∧ lowerName u.name = lowerName name)
    ∧ (handleNameFormSubmit users uid name
        = NameOutcome.created (name ++ " has joined the room.".toList)
      ↔ ∀ u ∈ users, u.id = uid → lowerName u.name ≠ lowerName name) := by
  have h1 : (scanUsers users uid name).1 = false := by
    rw [← Bool.not_eq_true, nameIsTaken_iff]
    rintro ⟨u, hu, hl, hid⟩
    exact hfree u hu hid hl
  constructor
  · constructor
    · intro h
      by_cases h2 : (scanUsers users uid name).2 = true
      · obtain ⟨u, hu, hl, hid⟩ := (existingUser_iff users uid name).mp h2
        exact ⟨u, hu, hid, hl⟩
      · have h2' : (scanUsers users uid name).2 = false :=
          Bool.eq_false_iff.mpr h2
        simp [handleNameFormSubmit, h1, h2'] at h
    · intro h
      have h2 : (scanUsers users uid name).2 = true := by
        rw [existingUser_iff]
        obtain ⟨u, hu, hid, hl⟩ := h
        exact ⟨u, hu, hl, hid⟩
      simp [handleNameFormSubmit, h1, h2]
  · constructor
    · intro h u hu hid
      by_contra hl
      have h2 : (scanUsers users uid name).2 = true := by
        rw [existingUser_iff]
        exact ⟨u, hu, hl, hid⟩
      simp [handleNameFormSubmit, h1, h2] at h
    · intro h
      have h2 : (scanUsers users uid name).2 = false := by
        rw [← Bool.not_eq_true, existingUser_iff]
        rintro ⟨u, hu, hl, hid⟩
        exact h u hu hid hl
      simp [handleNameFormSubmit, h1, h2]

/-- C1 amended witness: client `u1` holding name `Alice` resubmits `ALICE`
(case-insensitively its own name) and is refreshed without a join event. -/
theorem handleNameFormSubmit_rejoin_witness :
    (∀ u ∈ [Participant.mk "u1" "Alice".toList], u.id ≠ "u1" →
      lowerName u.name ≠ lowerName "ALICE".toList) ∧
    ((handleNameFormSubmit [Participant.mk "u1" "Alice".toList] "u1"
        "ALICE".toList = NameOutcome.refreshed
      ↔ ∃ u ∈ [Participant.mk "u1" "Alice".toList], u.id = "u1" ∧
          lowerName u.name = lowerName "ALICE".toList)
    ∧ (handleNameFormSubmit [Participant.mk "u1" "Alice".toList] "u1"
        "ALICE".toList
        = NameOutcome.created ("ALICE".toList ++ " has joined the room.".toList)
      ↔ ∀ u ∈ [Participant.mk "u1" "Alice".toList], u.id = "u1" →
          lowerName u.name ≠ lowerName "ALICE".toList)) :=
  ⟨by decide, handleNameFormSubmit_rejoin _ "u1" _ (by decide)⟩

/-- C3: under the per-room uniqueness invariant, a submission whose name is
held (case-insensitively) by a different client identity is rejected and
writes nothing, and any submission outcome preserves the invariant: no two
distinct client identities hold case-insensitively equal names. -/
theorem handleNameFormSubmit_name_unique (users : List Participant)
    (uid : String) (name : List Char)
    (hinv : ∀ u ∈ users, ∀ v ∈ users, u.id ≠ v.id →
      lowerName u.name ≠ lowerName v.name) :
    ((∃ u ∈ users, u.id ≠ uid ∧ lowerName u.name = lowerName name) →
      handleNameFormSubmit users uid name = NameOutcome.rejected ∧
      usersAfter users uid name = users)
    ∧ (∀ u ∈ usersAfter users uid name, ∀ v ∈ usersAfter users uid name,
        u.id ≠ v.id → lowerName u.name ≠ lowerName v.name) := by
  constructor
  · intro h
    have h1 : (scanUsers users uid name).1 = true := by
      rw [nameIsTaken_iff]
      obtain ⟨u, hu, hid, hl⟩ := h
      exact ⟨u, hu, hl, hid⟩
    have hout : handleNameFormSubmit users uid name = NameOutcome.rejected := by
      simp [handleNameFormSubmit, h1]
    exact ⟨hout, by simp [usersAfter, hout]⟩
  · by_cases h1 : (scanUsers users uid name).1 = true
    · have hout : handleNameFormSubmit users uid name = NameOutcome.rejected := by
        simp [handleNameFormSubmit, h1]
      simpa [usersAfter, hout] using hinv
    · have h1' : (scanUsers users uid name).1 = false := Bool.eq_false_iff.mpr h1
      by_cases h2 : (scanUsers users uid name).2 = true
      · have hout : handleNameFormSubmit users uid name
            = NameOutcome.refreshed := by
          simp [handleNameFormSubmit, h1', h2]
        simpa [usersAfter, hout] using hinv
      · have h2' : (scanUsers users uid name).2 = false := Bool.eq_false_iff.mpr h2
        have hout : handleNameFormSubmit users uid name
            = NameOutcome.created (name ++ " has joined the room.".toList) := by
          simp [handleNameFormSubmit, h1', h2']
        have hfree : ∀ u ∈ users, u.id ≠ uid →
            lowerName u.name ≠ lowerName name := by
          intro u hu hid hl
          have : (scanUsers users uid name).1 = true :=
            (nameIsTaken_iff users uid name).mpr ⟨u, hu, hl, hid⟩
          rw [this] at h1'
          exact absurd h1' (by simp)
        intro u hu v hv huv
        rw [usersAfter, hout] at hu hv
        rcases List.mem_cons.mp hu with hu | hu <;>
          rcases List.mem_cons.mp hv with hv | hv
        · rw [hu, hv] at huv
          exact absurd rfl huv
        · have hv' := List.mem_filter.mp hv
          have hvid : v.id ≠ uid := by simpa using hv'.2
          rw [hu]
          intro hl
          exact hfree v hv'.1 hvid hl.symm
        · have hu' := List.mem_filter.mp hu
          have huid : u.id ≠ uid := by simpa using hu'.2
          rw [hv]
          exact hfree u hu'.1 huid
        · exact hinv u (List.mem_filter.mp hu).1 v (List.mem_filter.mp hv).1 huv

/-- C3 witness: `alice` is rejected for client `u3` because client `u1`
already holds `Alice`, and the snapshot is unchanged; the invariant holds
after the attempt. -/
theorem handleNameFormSubmit_name_unique_witness :
    (∀ u ∈ [Participant.mk "u1" "Alice".toList, Participant.mk "u2" "Bob".toList],
      ∀ v ∈ [Participant.mk "u1" "Alice".toList, Participant.mk "u2" "Bob".toList],
      u.id ≠ v.id → lowerName u.name ≠ lowerName v.name) ∧
    (((∃ u ∈ [Participant.mk "u1" "Alice".toList, Participant.mk "u2" "Bob".toList],
        u.id ≠ "u3" ∧ lowerName u.name = lowerName "alice".toList) →
      handleNameFormSubmit
          [Participant.mk "u1" "Alice".toList, Participant.mk "u2" "Bob".toList]
          "u3" "alice".toList = NameOutcome.rejected ∧
      usersAfter
          [Participant.mk "u1" "Alice".toList, Participant.mk "u2" "Bob".toList]
          "u3" "alice".toList
        = [Participant.mk "u1" "Alice".toList, Participant.mk "u2" "Bob".toList])
    ∧ (∀ u ∈ usersAfter
          [Participant.mk "u1" "Alice".toList, Participant.mk "u2" "Bob".toList]
          "u3" "alice".toList,
        ∀ v ∈ usersAfter
          [Participant.mk "u1" "Alice".toList, Participant.mk "u2" "Bob".toList]
          "u3" "alice".toList,
        u.id ≠ v.id → lowerName u.name ≠ lowerName v.name)) :=
  ⟨by decide, handleNameFormSubmit_name_unique _ "u3" _ (by decide)⟩

/-! ## Delete-all-history (handleDeleteChat, src/app.js:619-662) -/

/-- The store-visible list of messages together with the locally rendered
message list (`#message-list` children, identified by their message data). -/
structure ChatViewState where
  store : List Msg
  rendered : List Msg
  deriving DecidableEq, Repr

/-- The system event message posted by `handleDeleteChat` after the batch
delete (src/app.js:647-652). `newId` is the fresh doc id assigned by
`addDoc`; `ts` its server-assigned timestamp (pending at issue time). -/
def clearedEvent (userName newId : String) (ts : Option Nat) : Msg :=
  { id := newId, kind := "event",
    text := userName ++ " cleared the chat history.",
    senderId := "system", name := "", timestamp := ts }

/-- The store/render states passed through by `handleDeleteChat`, in program
order: the initial state; after `batch.commit()` deleting every enumerated
message in one atomic batch; after `messageList.innerHTML = ''`; after the
`addDoc` of the cleared event. When the snapshot is empty the handler returns
before any write (src/app.js:631-634). -/
def handleDeleteChatTrace (s : ChatViewState) (userName newId : String)
    (ts : Option Nat) : List ChatViewState :=
  if s.store.isEmpty then [s]
  else
    [s,
     { store := [], rendered := s.rendered },
     { store := [], rendered := [] },
     { store := [clearedEvent userName newId ts], rendered := [] }]

/-- C4 counterexample: with zero messages in the room, delete-all returns
early: no cleared event is appended (the final store is empty, not a
one-element list holding the event) and the rendered list is not cleared. -/
theorem handleDeleteChat_empty_cex :
    handleDeleteChatTrace
        ⟨[], [⟨"m1", "user", "old", "u1", "A", some 5⟩]⟩ "Alice" "e1" none
      = [⟨[], [⟨"m1", "user", "old", "u1", "A", some 5⟩]⟩] ∧
    ∀ st ∈ handleDeleteChatTrace
        ⟨[], [⟨"m1", "user", "old", "u1", "A", some 5⟩]⟩ "Alice" "e1" none,
      st.store = [] ∧ st.rendered ≠ [] := by decide

/-- C4 amended: when the room holds at least one message, delete-all removes
every enumerated message in one atomic step (no intermediate state holds a
proper nonempty subset of the old messages), clears the rendered list before
the cleared event is appended, and ends with the store holding exactly the one
cleared event and nothing older. -/
theorem handleDeleteChat_atomic (s : ChatViewState) (userName newId : String)
    (ts : Option Nat) (hne : s.store ≠ [])
    (hfresh : ∀ m ∈ s.store, m.id ≠ newId) :
    (handleDeleteChatTrace s userName newId ts).getLast?
        = some ⟨[clearedEvent userName newId ts], []⟩
    ∧ (∀ st ∈ handleDeleteChatTrace s userName newId ts,
        st.store = s.store ∨ ∀ m ∈ s.store, m ∉ st.store)
    ∧ (handleDeleteChatTrace s userName newId ts)[2]? = some ⟨[], []⟩ := by
  have hlist : handleDeleteChatTrace s userName newId ts
      = [s,
         { store := [], rendered := s.rendered },
         { store := [], rendered := [] },
         { store := [clearedEvent userName newId ts], rendered := [] }] := by
    unfold handleDeleteChatTrace
    rw [if_neg]
    simpa using hne
  refine ⟨by rw [hlist]; rfl, ?_, by rw [hlist]; rfl⟩
  intro st hst
  rw [hlist] at hst
  simp only [List.mem_cons, List.not_mem_nil, or_false] at hst
  rcases hst with h | h | h | h
  · exact Or.inl (by rw [h])
  · refine Or.inr ?_
    rw [h]
    simp
  · refine Or.inr ?_
    rw [h]
    simp
  · refine Or.inr ?_
    rw [h]
    intro m hm
    simp only [List.mem_singleton]
    intro heq
    exact hfresh m hm (by rw [heq, clearedEvent])

/-- C4 witness: a one-message room is cleared atomically. -/
theorem handleDeleteChat_atomic_witness :
    ((⟨[⟨"m1", "user", "old", "u1", "A", some 5⟩],
       [⟨"m1", "user", "old", "u1", "A", some 5⟩]⟩ : ChatViewState).store ≠ []
    ∧ ∀ m ∈ (⟨[⟨"m1", "user", "old", "u1", "A", some 5⟩],
       [⟨"m1", "user", "old", "u1", "A", some 5⟩]⟩ : ChatViewState).store,
        m.id ≠ "e1")
    ∧ ((handleDeleteChatTrace
          ⟨[⟨"m1", "user", "old", "u1", "A", some 5⟩],
            [⟨"m1", "user", "old", "u1", "A", some 5⟩]⟩ "Alice" "e1" none).getLast?
          = some ⟨[clearedEvent "Alice" "e1" none], []⟩
    ∧ (∀ st ∈ handleDeleteChatTrace
          ⟨[⟨"m1", "user", "old", "u1", "A", some 5⟩],
            [⟨"m1", "user", "old", "u1", "A", some 5⟩]⟩ "Alice" "e1" none,
        st.store = (⟨[⟨"m1", "user", "old", "u1", "A", some 5⟩],
            [⟨"m1", "user", "old", "u1", "A", some 5⟩]⟩ : ChatViewState).store
        ∨ ∀ m ∈ (⟨[⟨"m1", "user", "old", "u1", "A", some 5⟩],
            [⟨"m1", "user", "old", "u1", "A", some 5⟩]⟩ : ChatViewState).store,
            m ∉ st.store)
    ∧ (handleDeleteChatTrace
          ⟨[⟨"m1", "user", "old", "u1", "A", some 5⟩],
            [⟨"m1", "user", "old", "u1", "A", some 5⟩]⟩ "Alice" "e1" none)[2]?
        = some ⟨[], []⟩) :=
  ⟨⟨by decide, by decide⟩,
    handleDeleteChat_atomic _ "Alice" "e1" none (by decide) (by decide)⟩

/-! ## Leaving a room (handleLeaveRoom, src/app.js:391-419) -/

/-- One store/navigation operation issued by the leave handler. -/
inductive LeaveOp where
  | appendMessage (text senderId : String)
  | deleteParticipant (uid : String)
  | navigate (token : String)
  deriving DecidableEq, Repr

/-- The operation sequence of `handleLeaveRoom` on its success path, in
program order; the guard (src/app.js:392) returns an empty sequence when the
room, display name, or client identity is unset. -/
def handleLeaveRoom (currentRoom userName uid : Option String) : List LeaveOp :=
  match currentRoom, userName, uid with
  | some _, some n, some u =>
      [LeaveOp.appendMessage (n ++ " has left the room.") "system",
       LeaveOp.deleteParticipant u,
       LeaveOp.navigate ""]
  | _, _, _ => []

/-- C6 counterexample: the leave handler does not perform
delete-record-then-append-event; its first operation is posting the
"has left" event message, the participant record is deleted second. -/
theorem handleLeaveRoom_order_cex :
    handleLeaveRoom (some "room1") (some "Alice") (some "u1")
      ≠ [LeaveOp.deleteParticipant "u1",
         LeaveOp.appendMessage ("Alice" ++ " has left the room.") "system",
         LeaveOp.navigate ""]
    ∧ (handleLeaveRoom (some "room1") (some "Alice") (some "u1")).head?
      = some (LeaveOp.appendMessage ("Alice" ++ " has left the room.") "system") := by
  decide

/-- C6 amended: leave appends the system "<name> has left the room." event
message first, then removes this client's participant record, then issues the
empty-token navigation. -/
theorem handleLeaveRoom_order (room n u : String) :
    handleLeaveRoom (some room) (some n) (some u)
      = [LeaveOp.appendMessage (n ++ " has left the room.") "system",
         LeaveOp.deleteParticipant u,
         LeaveOp.navigate ""] := rfl

/-! ## Transient-error handling (catch blocks of the five store-operation
sites) -/

/-- The five named UI states of `showUI` (src/app.js:121-160). -/
inductive UIState where
  | loading
  | room
  | password
  | name
  | chat
  deriving DecidableEq, Repr

/-- What a handler's catch (and finally) block leaves behind: the UI state
shown and the error text surfaced to the user (`none` when the catch only
logs to the console). -/
structure ErrorOutcome where
  ui : UIState
  messageShown : Option String
  deriving DecidableEq, Repr

/-- Catch of `verifyRoomExists` (src/app.js:221-225): shows a generic error
and resets the hash, which routes to the room-select screen. -/
def verifyRoomExistsOnError : ErrorOutcome :=
  ⟨UIState.room, some "An error occurred."⟩

/-- Catch of `handleRoomFormSubmit` (src/app.js:275-279). -/
def roomFormOnError : ErrorOutcome :=
  ⟨UIState.room, some "An error occurred. Please try again."⟩

/-- Catch of `handlePasswordVerifySubmit` (src/app.js:306-310). -/
def passwordVerifyOnError : ErrorOutcome :=
  ⟨UIState.password, some "An error occurred."⟩

/-- Catch of `handleNameFormSubmit` (src/app.js:381-385). -/
def nameFormOnError : ErrorOutcome :=
  ⟨UIState.name, some "An error occurred while joining."⟩

/-- Catch of `handleDeleteChat` (src/app.js:657-661): only
`console.error` runs; the finally block restores the chat screen. No error
text is surfaced. -/
def deleteChatOnError : ErrorOutcome :=
  ⟨UIState.chat, none⟩

/-- C7 counterexample: a failing delete-all surfaces no generic message to
the user — its catch block only logs — unlike the other four sites. -/
theorem deleteChatOnError_no_message_cex :
    deleteChatOnError.messageShown = none
    ∧ roomFormOnError.messageShown ≠ none := by decide

/-- C7 amended: every one of the five failure sites resolves back into a
stable named state and never leaves the UI in Loading; the room-existence,
create-or-join, password-verify, and name-claim sites additionally show a
generic message, while delete-all only logs and restores the chat screen. -/
theorem storeErrors_return_to_stable_state :
    (∀ o ∈ [verifyRoomExistsOnError, roomFormOnError, passwordVerifyOnError,
        nameFormOnError, deleteChatOnError], o.ui ≠ UIState.loading)
    ∧ (∀ o ∈ [verifyRoomExistsOnError, roomFormOnError,
        passwordVerifyOnError, nameFormOnError], o.messageShown ≠ none)
    ∧ deleteChatOnError = ⟨UIState.chat, none⟩ := by decide

/-! ## Message send (handleMessageFormSubmit, src/app.js:595-614) -/

/-- JS `String.prototype.trim` on a Lean `String`. -/
def jsTrimStr (s : String) : String := (jsTrim s.toList).asString

/-- One observable effect of the send handler, in program order. -/
inductive SendEffect where
  /-- `dom.messageInput.value = ''` before the write -/
  | clearInput
  /-- `addDoc` of `\x7bname, text, senderId, timestamp: serverTimestamp()\x7d` -/
  | writeStore (name text senderId : String)
  /-- `dom.messageInput.value = text` in the catch block -/
  | restoreInput (text : String)
  /-- a direct local DOM append of the sent message — never issued here -/
  | appendLocal (text : String)
  deriving DecidableEq, Repr

/-- The effect sequence of `handleMessageFormSubmit`: `input` is the raw field
value; the guard requires the trimmed text nonempty and room, name, and
identity all set. `writeFails` abstracts the `addDoc` promise rejecting. -/
def handleMessageFormSubmit (input : String)
    (currentRoom userName uid : Option String) (writeFails : Bool) :
    List SendEffect :=
  let text := jsTrimStr input
  match currentRoom, userName, uid with
  | some _, some n, some u =>
      if text == "" then []
      else if writeFails then
        [SendEffect.clearInput, SendEffect.writeStore n text u,
         SendEffect.restoreInput text]
      else
        [SendEffect.clearInput, SendEffect.writeStore n text u]
  | _, _, _ => []

/-- The message-input field value after the handler finishes. -/
def messageInputAfter (input : String)
    (currentRoom userName uid : Option String) (writeFails : Bool) : String :=
  let text := jsTrimStr input
  match currentRoom, userName, uid with
  | some _, some _, some _ =>
      if text == "" then input
      else if writeFails then text
      else ""
  | _, _, _ => input

/-- C8: with nonempty trimmed text and an active session, the input is
cleared optimistically before the store write; on write failure the submitted
text is restored into the input for retry (on success it stays cleared); and
the send path itself never appends a local message element. -/
theorem handleMessageFormSubmit_optimistic (input room n u : String)
    (writeFails : Bool) (hne : jsTrimStr input ≠ "") :
    ((handleMessageFormSubmit input (some room) (some n) (some u)
        writeFails).head? = some SendEffect.clearInput)
    ∧ ((handleMessageFormSubmit input (some room) (some n) (some u)
        writeFails)[1]?
        = some (SendEffect.writeStore n (jsTrimStr input) u))
    ∧ (writeFails = true →
        messageInputAfter input (some room) (some n) (some u) writeFails
          = jsTrimStr input
        ∧ (handleMessageFormSubmit input (some room) (some n) (some u)
            writeFails).getLast?
          = some (SendEffect.restoreInput (jsTrimStr input)))
    ∧ (writeFails = false →
        messageInputAfter input (some room) (some n) (some u) writeFails = "")
    ∧ (∀ t, SendEffect.appendLocal t
        ∉ handleMessageFormSubmit input (some room) (some n) (some u)
            writeFails) := by
  have hne' : (jsTrimStr input == "") = false := by
    simpa using hne
  cases writeFails <;>
    simp [handleMessageFormSubmit, messageInputAfter, hne']

/-- C8 witness: sending "  hi  " with a failing write clears then restores
the trimmed text. -/
theorem handleMessageFormSubmit_optimistic_witness :
    jsTrimStr "  hi  " ≠ "" ∧
    (((handleMessageFormSubmit "  hi  " (some "room1") (some "Alice")
        (some "u1") true).head? = some SendEffect.clearInput)
    ∧ ((handleMessageFormSubmit "  hi  " (some "room1") (some "Alice")
        (some "u1") true)[1]?
        = some (SendEffect.writeStore "Alice" (jsTrimStr "  hi  ") "u1"))
    ∧ (true = true →
        messageInputAfter "  hi  " (some "room1") (some "Alice") (some "u1")
            true = jsTrimStr "  hi  "
        ∧ (handleMessageFormSubmit "  hi  " (some "room1") (some "Alice")
            (some "u1") true).getLast?
          = some (SendEffect.restoreInput (jsTrimStr "  hi  ")))
    ∧ (true = false →
        messageInputAfter "  hi  " (some "room1") (some "Alice") (some "u1")
            true = "")
    ∧ (∀ t, SendEffect.appendLocal t
        ∉ handleMessageFormSubmit "  hi  " (some "room1") (some "Alice")
            (some "u1") true)) :=
  ⟨by decide,
    handleMessageFormSubmit_optimistic "  hi  " "room1" "Alice" "u1" true
      (by decide)⟩

/-! ## Stale-result handling of in-flight store operations
(handlePasswordVerifySubmit, src/app.js:285-311)

Navigating away while the digest compare is awaited runs
`handleHashChange`, which rewrites `currentRoom` before the result handler
resumes. The spec requires the result handler to compare the context it
depended on against the current context and discard a stale result. -/

/-- The session context visible when the awaited store read resolves:
the room the check was issued for, and the global `currentRoom` at
resolution time (`none` after navigating to the empty token). -/
structure ResolutionContext where
  requestRoom : String
  roomAtResolution : Option String
  deriving DecidableEq, Repr

/-- The continuation of `handlePasswordVerifySubmit` after its awaits
(src/app.js:298-305): it branches only on the snapshot — room exists and the
stored hash equals the candidate hash — and never consults the
resolution-time session context before applying the result. -/
def passwordVerifyResume (_ctx : ResolutionContext) (roomExists : Bool)
    (storedHash candidateHash : String) : UIState :=
  if roomExists && storedHash == candidateHash then UIState.name
  else UIState.password

/-- C5: the password-verify result handler applies its result no matter what
the session context has become: its outcome is independent of the resolution
context, and at the concrete failing input — the user navigated away
(`currentRoom` now empty) while the check for `team-x` was in flight — the
matching result is still applied, showing the name screen instead of being
discarded. The same unguarded-resume pattern is shared by
`handleNameFormSubmit` (src/app.js:375-379). -/
theorem passwordVerifyResume_ignores_context :
    (∀ ctx ctx' : ResolutionContext, ∀ (roomExists : Bool)
        (storedHash candidateHash : String),
      passwordVerifyResume ctx roomExists storedHash candidateHash
        = passwordVerifyResume ctx' roomExists storedHash candidateHash)
    ∧ (⟨"team-x", none⟩ : ResolutionContext).roomAtResolution
        ≠ some (⟨"team-x", none⟩ : ResolutionContext).requestRoom
    ∧ passwordVerifyResume ⟨"team-x", none⟩ true "d1gest" "d1gest"
        = UIState.name := by
  exact ⟨fun _ _ _ _ _ => rfl, by decide, rfl⟩

/-! ## Password trimming and digests (handleRoomFormSubmit src/app.js:231-280,
handlePasswordVerifySubmit src/app.js:285-311, hashPassword
src/app.js:700-707)

`hashPassword` wraps the opaque SHA-256 primitive, modelled as an abstract
`digest : String → String` parameter. -/

/-- The digest computed by the create-or-join form: the password field is
trimmed (src/app.js:235) before hashing (src/app.js:245). -/
def roomFormDigest (digest : String → String) (raw : String) : String :=
  digest (jsTrimStr raw)

/-- The digest computed by the password-verify form: its field is likewise
trimmed (src/app.js:288) before hashing (src/app.js:294). -/
def verifyDigest (digest : String → String) (raw : String) : String :=
  digest (jsTrimStr raw)

/-- Existing-room acceptance in `handleRoomFormSubmit` (src/app.js:251). -/
def roomFormAccepts (digest : String → String) (storedHash raw : String) :
    Bool :=
  storedHash == roomFormDigest digest raw

/-- Acceptance in `handlePasswordVerifySubmit` (src/app.js:298). -/
def passwordVerifyAccepts (digest : String → String) (roomExists : Bool)
    (storedHash raw : String) : Bool :=
  roomExists && (storedHash == verifyDigest digest raw)

/-- The `passwordHash` stored by the create branch (src/app.js:264-267). -/
def createdRoomStoredHash (digest : String → String) (raw : String) : String :=
  roomFormDigest digest raw

/-- C10: both submission paths trim the password before hashing, so any two
raw inputs equal after trimming yield the same digest on either path and are
accepted or rejected identically against any stored hash; a created room
stores the digest of the trimmed password. -/
theorem password_trim_digest_agreement (digest : String → String)
    (p1 p2 : String) (h : jsTrimStr p1 = jsTrimStr p2) :
    roomFormDigest digest p1 = verifyDigest digest p2
    ∧ (∀ storedHash, roomFormAccepts digest storedHash p1
        = passwordVerifyAccepts digest true storedHash p2)
    ∧ createdRoomStoredHash digest p1 = digest (jsTrimStr p1) := by
  refine ⟨by rw [roomFormDigest, verifyDigest, h], ?_, rfl⟩
  intro storedHash
  rw [roomFormAccepts, passwordVerifyAccepts, roomFormDigest, verifyDigest, h]
  simp

/-- C10 witness: `" hunter2"` and `"hunter2  "` agree after trimming, with a
concrete digest function. -/
theorem password_trim_digest_agreement_witness :
    jsTrimStr " hunter2" = jsTrimStr "hunter2  " ∧
    (roomFormDigest (fun s => s ++ "#d") " hunter2"
        = verifyDigest (fun s => s ++ "#d") "hunter2  "
    ∧ (∀ storedHash, roomFormAccepts (fun s => s ++ "#d") storedHash " hunter2"
        = passwordVerifyAccepts (fun s => s ++ "#d") true storedHash
            "hunter2  ")
    ∧ createdRoomStoredHash (fun s => s ++ "#d") " hunter2"
        = (fun s => s ++ "#d") (jsTrimStr " hunter2")) :=
  ⟨by decide,
    password_trim_digest_agreement (fun s => s ++ "#d") " hunter2" "hunter2  "
      (by decide)⟩

end SecureChat
